import Mathlib

/-!
Verification of the autodeps environment-provisioning engine
(`src/autodeps.py`) against its natural-language specification.

Strings of the Python source are modelled as `List Char` (Python 2 `str`
is a byte string; where byte-ness matters a `c.toNat < 256` side
condition appears).  Filesystem state and external command outcomes are
modelled explicitly: pure string processing (requirements parsing,
identity hashing, package-token extraction) is embedded directly, and
the stateful control flow of `update_if_needed` / `update_unsafe` is
embedded as functions over an explicit filesystem record together with
an oracle giving the outcome of each external command.
-/

namespace Autodeps

/-! ### Hex digits -/

/-- The lowercase hexadecimal alphabet, in digit order (as used by
Python's `hexdigest`). -/
def hexDigs : List Char := "0123456789abcdef".toList

/-- The hex character of a digit value. -/
def hexDig (n : Nat) : Char := hexDigs.getD n '0'

/-- Numeric value of a lowercase hex character (inverse of `hexDig`). -/
def hexVal (c : Char) : Option Nat :=
  if c = '0' then some 0 else if c = '1' then some 1
  else if c = '2' then some 2 else if c = '3' then some 3
  else if c = '4' then some 4 else if c = '5' then some 5
  else if c = '6' then some 6 else if c = '7' then some 7
  else if c = '8' then some 8 else if c = '9' then some 9
  else if c = 'a' then some 10 else if c = 'b' then some 11
  else if c = 'c' then some 12 else if c = 'd' then some 13
  else if c = 'e' then some 14 else if c = 'f' then some 15
  else none

/-! ### SHA-224 (FIPS 180-4), as used by `hashlib.sha224`

The digest is computed over the byte string
`platform.python_version() + repr(self.requirements)` (autodeps.py
lines 47-48).  Machine words are `Nat` reduced mod `2 ^ 32`. -/

/-- Truncate to a 32-bit word. -/
def w32 (n : Nat) : Nat := n % 4294967296

/-- Right-rotation of a 32-bit word by `k` bits. -/
def rotr32 (k x : Nat) : Nat := w32 (x / 2 ^ k + x % 2 ^ k * 2 ^ (32 - k))

/-- Bitwise complement within 32 bits. -/
def comp32 (x : Nat) : Nat := 4294967295 ^^^ x

/-- FIPS 180-4 `Ch` function. -/
def chF (x y z : Nat) : Nat := (x &&& y) ^^^ (comp32 x &&& z)

/-- FIPS 180-4 `Maj` function. -/
def majF (x y z : Nat) : Nat := (x &&& y) ^^^ (x &&& z) ^^^ (y &&& z)

/-- FIPS 180-4 `Σ0`. -/
def bigSigma0 (x : Nat) : Nat := rotr32 2 x ^^^ rotr32 13 x ^^^ rotr32 22 x

/-- FIPS 180-4 `Σ1`. -/
def bigSigma1 (x : Nat) : Nat := rotr32 6 x ^^^ rotr32 11 x ^^^ rotr32 25 x

/-- FIPS 180-4 `σ0`. -/
def smallSigma0 (x : Nat) : Nat := rotr32 7 x ^^^ rotr32 18 x ^^^ x / 2 ^ 3

/-- FIPS 180-4 `σ1`. -/
def smallSigma1 (x : Nat) : Nat := rotr32 17 x ^^^ rotr32 19 x ^^^ x / 2 ^ 10

/-- The 64 SHA-256 round constants. -/
def shaK : List Nat :=
  [1116352408, 1899447441, 3049323471, 3921009573,
   961987163, 1508970993, 2453635748, 2870763221,
   3624381080, 310598401, 607225278, 1426881987,
   1925078388, 2162078206, 2614888103, 3248222580,
   3835390401, 4022224774, 264347078, 604807628,
   770255983, 1249150122, 1555081692, 1996064986,
   2554220882, 2821834349, 2952996808, 3210313671,
   3336571891, 3584528711, 113926993, 338241895,
   666307205, 773529912, 1294757372, 1396182291,
   1695183700, 1986661051, 2177026350, 2456956037,
   2730485921, 2820302411, 3259730800, 3345764771,
   3516065817, 3600352804, 4094571909, 275423344,
   430227734, 506948616, 659060556, 883997877,
   958139571, 1322822218, 1537002063, 1747873779,
   1955562222, 2024104815, 2227730452, 2361852424,
   2428436474, 2756734187, 3204031479, 3329325298]

/-- The eight 32-bit working variables of the SHA-2 compression state. -/
structure Hash8 where
  a : Nat
  b : Nat
  c : Nat
  d : Nat
  e : Nat
  f : Nat
  g : Nat
  h : Nat

/-- The SHA-224 initial hash value. -/
def sha224IV : Hash8 :=
  ⟨3238371032, 914150663, 812702999, 4144912697,
   4290775857, 1750603025, 1694076839, 3204075428⟩

/-- One round of the SHA-256 compression function, consuming one
round-constant/schedule-word pair. -/
def roundStep (s : Hash8) (kw : Nat × Nat) : Hash8 :=
  let t1 := w32 (s.h + bigSigma1 s.e + chF s.e s.f s.g + kw.1 + kw.2)
  let t2 := w32 (bigSigma0 s.a + majF s.a s.b s.c)
  ⟨w32 (t1 + t2), s.a, s.b, s.c, w32 (s.d + t1), s.e, s.f, s.g⟩

/-- Split a byte list into big-endian 32-bit words (four bytes each). -/
def toWords : List Nat → List Nat
  | b0 :: b1 :: b2 :: b3 :: rest =>
      (b0 * 2 ^ 24 + b1 * 2 ^ 16 + b2 * 2 ^ 8 + b3) :: toWords rest
  | _ => []

/-- Extend a 16-word message block by `n` further schedule words. -/
def scheduleAux : Nat → List Nat → List Nat
  | 0, ws => ws
  | n + 1, ws =>
      scheduleAux n (ws ++ [w32 (smallSigma1 (ws.getD (ws.length - 2) 0) +
                                 ws.getD (ws.length - 7) 0 +
                                 smallSigma0 (ws.getD (ws.length - 15) 0) +
                                 ws.getD (ws.length - 16) 0)])

/-- Process one 64-byte block. -/
def processBlock (s : Hash8) (block : List Nat) : Hash8 :=
  let ws := scheduleAux 48 (toWords block)
  let t := (shaK.zip ws).foldl roundStep s
  ⟨w32 (s.a + t.a), w32 (s.b + t.b), w32 (s.c + t.c), w32 (s.d + t.d),
   w32 (s.e + t.e), w32 (s.f + t.f), w32 (s.g + t.g), w32 (s.h + t.h)⟩

/-- Big-endian 8-byte encoding of the 64-bit message bit-length. -/
def lenBytes (n : Nat) : List Nat :=
  [n / 2 ^ 56 % 256, n / 2 ^ 48 % 256, n / 2 ^ 40 % 256, n / 2 ^ 32 % 256,
   n / 2 ^ 24 % 256, n / 2 ^ 16 % 256, n / 2 ^ 8 % 256, n % 256]

/-- SHA-2 message padding: a `0x80` byte, zeros to 56 mod 64, then the
bit length. -/
def padMsg (msg : List Nat) : List Nat :=
  msg ++ 0x80 :: List.replicate ((119 - msg.length % 64) % 64) 0 ++
    lenBytes (8 * msg.length)

/-- Split a padded message into 64-byte blocks. -/
def chunk64 : List Nat → List (List Nat)
  | [] => []
  | b :: rest => ((b :: rest).take 64) :: chunk64 ((b :: rest).drop 64)
termination_by l => l.length
decreasing_by simp; omega

/-- Big-endian bytes of a 32-bit word. -/
def word32ToBytes (x : Nat) : List Nat :=
  [x / 2 ^ 24 % 256, x / 2 ^ 16 % 256, x / 2 ^ 8 % 256, x % 256]

/-- The 28-byte SHA-224 digest of a byte string (the first seven words
of the final SHA-256-with-SHA-224-IV state). -/
def sha224bytes (msg : List Nat) : List Nat :=
  let fin := (chunk64 (padMsg msg)).foldl processBlock sha224IV
  word32ToBytes fin.a ++ word32ToBytes fin.b ++ word32ToBytes fin.c ++
    word32ToBytes fin.d ++ word32ToBytes fin.e ++ word32ToBytes fin.f ++
    word32ToBytes fin.g

/-- Lowercase-hex byte rendering, as in `hexdigest`. -/
def byteToHex (b : Nat) : List Char := [hexDig (b / 16 % 16), hexDig (b % 16)]

/-- Model of `hashlib.sha224(msg).hexdigest()`: 56 lowercase hex characters. -/
def sha224hexdigest (msg : List Nat) : List Char :=
  ((sha224bytes msg).map byteToHex).flatten

/-! ### Python 2 `repr` of a list of byte strings

`Autodeps.__init__` (line 48) hashes `repr(self.requirements)`, the
CPython 2 `repr` of a list of `str`.  CPython chooses a single quote
unless the string contains `'` and no `"`; it escapes the backslash,
the chosen quote, tab, newline and carriage return symbolically, keeps
printable ASCII (0x20-0x7e) verbatim, and renders every other byte as a
lowercase `\xhh` escape.  List `repr` is the elements' `repr`s joined
by a comma and a space inside square brackets. -/

/-- The quote character CPython 2 `repr` picks for a string. -/
def chooseQuote (s : List Char) : Char :=
  if s.contains '\'' && !(s.contains '"') then '"' else '\''

/-- CPython 2 `repr` rendering of one byte inside quotes `q`. -/
def escChar (q c : Char) : List Char :=
  if c = '\\' then ['\\', '\\']
  else if c = q then ['\\', q]
  else if c = '\t' then ['\\', 't']
  else if c = '\n' then ['\\', 'n']
  else if c = '\r' then ['\\', 'r']
  else if 32 ≤ c.toNat && c.toNat ≤ 126 then [c]
  else ['\\', 'x', hexDig (c.toNat / 16 % 16), hexDig (c.toNat % 16)]

/-- Body of a Python 2 string `repr` (everything between the quotes). -/
def escBody (q : Char) (s : List Char) : List Char := (s.map (escChar q)).flatten

/-- CPython 2 `repr` of one byte string. -/
def reprStr (s : List Char) : List Char :=
  chooseQuote s :: (escBody (chooseQuote s) s ++ [chooseQuote s])

/-- Join rendered elements with a comma and a space, as list `repr` does. -/
def sepJoin : List (List Char) → List Char
  | [] => []
  | [x] => x
  | x :: xs => x ++ ',' :: ' ' :: sepJoin xs

/-- CPython 2 `repr` of a list of byte strings. -/
def pyReprList (xs : List (List Char)) : List Char :=
  '[' :: (sepJoin (xs.map reprStr) ++ [']'])

/-! #### Decoder for `repr` output (used to prove `repr` injective) -/

/-- Undo a symbolic (single-character) escape. -/
def unescSimple (e : Char) : Option Char :=
  if e = '\\' then some '\\'
  else if e = '\'' then some '\''
  else if e = '"' then some '"'
  else if e = 'n' then some '\n'
  else if e = 'r' then some '\r'
  else if e = 't' then some '\t'
  else none

/-- Read a string body up to its closing quote `q`, undoing escapes;
returns the decoded characters and the remaining input. -/
def parseReprAux (q : Char) (acc : List Char) : List Char → Option (List Char × List Char)
  | [] => none
  | c :: rest =>
    if c = q then some (acc.reverse, rest)
    else if c = '\\' then
      match rest with
      | 'x' :: h1 :: h2 :: rest2 =>
        match hexVal h1, hexVal h2 with
        | some v1, some v2 => parseReprAux q (Char.ofNat (16 * v1 + v2) :: acc) rest2
        | _, _ => none
      | e :: rest2 =>
        match unescSimple e with
        | some c2 => parseReprAux q (c2 :: acc) rest2
        | none => none
      | [] => none
    else parseReprAux q (c :: acc) rest

/-- Read one quoted string `repr`. -/
def parseReprStr : List Char → Option (List Char × List Char)
  | q :: rest => if q = '\'' || q = '"' then parseReprAux q [] rest else none
  | [] => none

/-- Read the comma-and-space separated elements of a list `repr` up to
the closing bracket (`fuel` bounds the number of elements). -/
def parseReprElems : Nat → List Char → Option (List (List Char) × List Char)
  | 0, _ => none
  | fuel + 1, input =>
    match parseReprStr input with
    | none => none
    | some (s, r) =>
      match r with
      | ',' :: ' ' :: r2 =>
        match parseReprElems fuel r2 with
        | some (ss, r3) => some (s :: ss, r3)
        | none => none
      | ']' :: r2 => some ([s], r2)
      | _ => none

/-- Decode a complete list `repr` back to the list of byte strings. -/
def parseReprList (l : List Char) : Option (List (List Char)) :=
  match l with
  | '[' :: ']' :: [] => some []
  | '[' :: rest =>
    match parseReprElems rest.length rest with
    | some (xs, r) => if r = [] then some xs else none
    | none => none
  | _ => none

/-! ### Requirements parsing and the identity hash

`Autodeps.__init__` lines 40-49: every line of every requirements file
is comment-stripped with `re.sub(r'[#].*', '', line)`, whitespace
trimmed with `str.strip()`, and empty results are dropped with
`filter(len, ...)`; the identity is
`sha224(python_version + repr(requirements)).hexdigest()[:40]`. -/

/-- Scanner for `re.sub(r'[#].*', '', line)`: once a `#` is seen,
characters are dropped until the next newline (`.` does not match a
newline), and scanning resumes after it. -/
def subHashAux (inComment : Bool) : List Char → List Char
  | [] => []
  | c :: rest =>
    if inComment then
      if c = '\n' then c :: subHashAux false rest else subHashAux true rest
    else
      if c = '#' then subHashAux true rest else c :: subHashAux false rest

/-- Comment stripping `re.sub(r'[#].*', '', line)`: delete each `#` and everything after
it up to (not including) the next newline. -/
def subHash (l : List Char) : List Char := subHashAux false l

/-- The characters `str.strip()` removes (Python's `string.whitespace`). -/
def isPyWs (c : Char) : Bool :=
  c = ' ' || c = '\t' || c = '\n' || c = '\r' || c = '\x0b' || c = '\x0c'

/-- Python's `str.strip()`. -/
def pyStrip (l : List Char) : List Char :=
  ((l.dropWhile isPyWs).reverse.dropWhile isPyWs).reverse

/-- The resolved `DependencySet`: lines comment-stripped, trimmed, with
empty lines dropped, in declaration order (duplicates kept). -/
def parse_requirements (lines : List (List Char)) : List (List Char) :=
  (lines.map (fun l => pyStrip (subHash l))).filter (fun s => !s.isEmpty)

/-- The digest input `platform.python_version() + repr(requirements)`. -/
def hashInput (pythonVersion : List Char) (requirements : List (List Char)) : List Char :=
  pythonVersion ++ pyReprList requirements

/-- The identity `self.deps_hash` (lines 47-48): the SHA-224 hexdigest of the version
string concatenated with the requirement list's `repr`, truncated to
its first 40 hex digits. -/
def deps_hash (pythonVersion : List Char) (requirements : List (List Char)) : List Char :=
  (sha224hexdigest ((hashInput pythonVersion requirements).map Char.toNat)).take 40

/-- A byte string: every character is a single byte (Python 2 `str`). -/
def bytesOnly (s : List Char) : Prop := ∀ c ∈ s, c.toNat < 256

/-- A dependency set of byte strings. -/
def bytesSet (xs : List (List Char)) : Prop := ∀ s ∈ xs, bytesOnly s

instance (s : List Char) : Decidable (bytesOnly s) := by
  unfold bytesOnly; infer_instance

instance (xs : List (List Char)) : Decidable (bytesSet xs) := by
  unfold bytesSet; infer_instance

/-- Two distinct byte strings on which the truncated SHA-224 hexdigest
agrees (the negligible-probability event the spec sets aside). -/
def TruncDigestCollision : Prop :=
  ∃ b1 b2 : List Nat, b1 ≠ b2 ∧
    (sha224hexdigest b1).take 40 = (sha224hexdigest b2).take 40

/-! ### Directory selection (`Autodeps.__init__` lines 51-74)

One candidate of the expanded `venv-dir-search` list, as observed by
the selection loops.  `freeGb` is the value `freespace_gb(path)`
reports (the source walks up to the nearest existing ancestor before
calling `statvfs`; only the reported number matters here), `createOk`
is whether `os.makedirs(path)` succeeds, and `racedExists` is whether,
after `os.makedirs` raised `OSError`, `path` or `path + '.lock'` is
found to exist (the caught creation race). -/
structure Cand where
  pathExists : Bool
  lockExists : Bool
  freeGb : Rat
  createOk : Bool
  racedExists : Bool
deriving DecidableEq, Inhabited

/-- The free-space threshold:
`self.config.get('venv-dir-required-gigabytes', 1.0)`. -/
def requiredGb (cfg : Option Rat) : Rat := cfg.getD 1

/-- First loop (lines 54-58): the first path that already exists or
whose sibling lock-file exists. -/
def searchExisting : List Cand → Option Nat
  | [] => none
  | c :: rest =>
    if c.pathExists || c.lockExists then some 0
    else (searchExisting rest).map (· + 1)

/-- Second loop (lines 60-72): the first path with free space above the
threshold that `os.makedirs` creates, or that turns out to exist after
a caught creation race; candidates whose creation fails without a race
are skipped. -/
def searchCreate (thr : Rat) : List Cand → Option Nat
  | [] => none
  | c :: rest =>
    if thr < c.freeGb then
      if c.createOk then some 0
      else if c.racedExists then some 0
      else (searchCreate thr rest).map (· + 1)
    else (searchCreate thr rest).map (· + 1)

/-- The selected `self.virtualenv_dir` (as an index into the candidate
list); `none` is the `assert self.virtualenv_dir is not None` failure. -/
def selectVenvDir (thr : Rat) (cands : List Cand) : Option Nat :=
  match searchExisting cands with
  | some i => some i
  | none => searchCreate thr cands

/-! ### Filesystem state, command oracle and events

`FS` holds the shared mutable state the engine touches for one
environment path: the completion marker `<venv>/.completed`, the
staging directory `<venv>.build`, the final directory `<venv>`, the
advisory lock and its lock-file, and the archive-directory tarball for
this identity (`some c` = a tarball with content token `c` exists).

`Env` is the outcome oracle for external commands and syscalls; a
field set to `false` makes the corresponding step fail.  Events record
the externally observable actions. -/

structure FS where
  markerExists : Bool
  stagingExists : Bool
  finalExists : Bool
  lockHeld : Bool
  lockFileExists : Bool
  archive : Option Nat
deriving DecidableEq

structure Env where
  archiveTarExists : Bool
  extractOk : Bool
  submoduleConfigured : Bool
  submoduleOk : Bool
  mkdirOk : Bool
  createVenvOk : Bool
  tagOk : Bool
  pipOk : Nat → Bool
  relocOk : Bool
  rmtreeOk : Bool
  archiveWritable : Bool
  tarOk : Bool
  publishContent : Nat

inductive Event where
  | symlinkFix
  | lockAcquire
  | lockRelease
  | archiveSearch
  | buildInvoked
  | markerWrite
  | archivePublish
  | runInstaller (name : List Char) (log : Option (List Char))
deriving DecidableEq

/-- Result of running a piece of the engine: the filesystem afterwards,
the events emitted, and whether it returned normally (`ok = false`
models a propagating Python exception). -/
structure Outcome where
  fs : FS
  events : List Event
  ok : Bool
deriving DecidableEq

/-- Sequencing with exception propagation: run `f` only if `o` returned
normally; a raised exception skips everything after it. -/
def Outcome.andThen (o : Outcome) (f : FS → Outcome) : Outcome :=
  if o.ok then
    let r := f o.fs
    ⟨r.fs, o.events ++ r.events, r.ok⟩
  else o

/-- Record `pre` as happening before `o`. -/
def Outcome.prepend (pre : List Event) (o : Outcome) : Outcome :=
  ⟨o.fs, pre ++ o.events, o.ok⟩

/-- Model of `Autodeps.call_installer` (lines 337-374): run one external
command with its log destination; on non-zero exit it raises
`Exception` (modelled as `ok = false`). -/
def call_installer (name : List Char) (logfilename : Option (List Char))
    (ok : Bool) (fs : FS) : Outcome :=
  ⟨fs, [.runInstaller name logfilename], ok⟩

/-- Model of `Autodeps.submodule_update` (lines 253-261): best-effort; the
`try/except: pass` swallows an installer failure. -/
def submodule_update (env : Env) (fs : FS) : Outcome :=
  if env.submoduleConfigured then
    let o := call_installer "Updating submodules".toList
      (some "submodules.log".toList) env.submoduleOk fs
    ⟨o.fs, o.events, true⟩
  else ⟨fs, [], true⟩

/-! ### Package installation (`pip_install_packages`, lines 301-325) -/

/-- A character of the `[a-zA-Z-]` class of the first regex. -/
def isTokChar (c : Char) : Bool := c.isAlpha || c = '-'

/-- Group 1 of `re.match('.*/([a-zA-Z-]+)', package)`: the maximal
`[a-zA-Z-]` run after the last `/` that is followed by at least one
such character (`.*` is greedy). -/
def lastSlashTok : List Char → Option (List Char)
  | [] => none
  | c :: rest =>
    match lastSlashTok rest with
    | some t => some t
    | none =>
      if c = '/' then
        let t := rest.takeWhile isTokChar
        if t.isEmpty then none else some t
      else none

/-- Group 1 of `re.search(' ([a-zA-Z]+)$', package)`: the maximal
alphabetic suffix, provided it is non-empty and preceded by a space. -/
def trailingWord (s : List Char) : Option (List Char) :=
  let w := (s.reverse.takeWhile (fun c => c.isAlpha)).reverse
  if w.isEmpty then none
  else
    match s.reverse.drop w.length with
    | ' ' :: _ => some w
    | _ => none

/-- The short token `package_short` (lines 307-310): trailing path segment, else
trailing bare word, else the whole declaration. -/
def package_short (package : List Char) : List Char :=
  match lastSlashTok package with
  | some t => t
  | none =>
    match trailingWord package with
    | some t => t
    | none => package

/-- Install the declarations one at a time in order (`i` is the index
of the first of `pkgs` within the full requirement list); each gets its
own installer invocation logged to `<short>.out`, and the first failure
aborts the rest. -/
def pip_install_packages (env : Env) : Nat → List (List Char) → FS → Outcome
  | _, [], fs => ⟨fs, [], true⟩
  | i, p :: rest, fs =>
    let short := package_short p
    (call_installer short (some (short ++ ".out".toList)) (env.pipOk i) fs).andThen
      (pip_install_packages env (i + 1) rest)

/-! ### The build (`update_unsafe`, lines 174-203) and archive publish -/

/-- Model of `rmtree(old_venv_dir)` with `ENOENT` ignored: an existing final
directory that cannot be removed propagates the `OSError`. -/
def rmtree_final (env : Env) (fs : FS) : Outcome :=
  if fs.finalExists && !env.rmtreeOk then ⟨fs, [], false⟩
  else ⟨{ fs with finalExists := false }, [], true⟩

/-- Model of `Autodeps.make_archive` (lines 281-299), sequential view: skip if
the archive directory is not writable or a tarball for this identity
already exists; otherwise tar into a random temporary name, chmod, and
rename into place. -/
def make_archive (env : Env) (fs : FS) : Outcome :=
  if !env.archiveWritable then ⟨fs, [], true⟩
  else if fs.archive.isSome then ⟨fs, [], true⟩
  else
    (call_installer "Making tar archive".toList (some "archive.log".toList)
        env.tarOk fs).andThen
      fun fs2 => ⟨{ fs2 with archive := some env.publishContent }, [.archivePublish], true⟩

/-- Model of `Autodeps.update_unsafe` (lines 174-203): build into the staging
directory `<venv>.build` (`mkdirs` swallows creation errors), then
submodule update (best-effort), venv creation, revision tagging, the
requirements manifest write (contents not tracked here), per-package
installs, the relocatable fix-up; on success remove any pre-existing
final directory, rename staging to final, and opportunistically
publish the archive.  Any failing mandatory step raises, leaving the
state as it was at the failure. -/
def update_unchecked (env : Env) (reqs : List (List Char)) (fs : FS) : Outcome :=
  let fs0 : FS := { fs with stagingExists := fs.stagingExists || env.mkdirOk }
  (submodule_update env fs0).andThen fun fs1 =>
  (call_installer "Creating venv".toList (some "venv.log".toList)
      env.createVenvOk fs1).andThen fun fs2 =>
  (call_installer "Recording git revision".toList (some "revision".toList)
      env.tagOk fs2).andThen fun fs3 =>
  (pip_install_packages env 0 reqs fs3).andThen fun fs4 =>
  (call_installer "Making venv relocatable".toList (some "relocatable.log".toList)
      env.relocOk fs4).andThen fun fs5 =>
  (rmtree_final env fs5).andThen fun fs6 =>
  make_archive env { fs6 with stagingExists := false, finalExists := true }

/-- Model of `Autodeps.search_for_precompiled_archive` (lines 205-225): if a
tarball named `<deps_hash>.tar.gz` exists in a search directory,
extract it into place (a failing extraction raises out of the
function) and run the best-effort submodule update; the returned flag
says whether a tarball was found. -/
def search_for_precompiled_archive (env : Env) (fs : FS) : Outcome × Bool :=
  if env.archiveTarExists then
    (Outcome.prepend [.archiveSearch]
      ((call_installer "Extracting archive".toList none env.extractOk fs).andThen
        fun fs1 =>
          (submodule_update env { fs1 with finalExists := true })), true)
  else (⟨fs, [.archiveSearch], true⟩, false)

/-! ### `update_if_needed` (lines 151-172) -/

/-- Model of `lock_venv_dir` (lines 237-243): open (creating) the lock-file and
take the exclusive advisory lock. -/
def lock_venv_dir (fs : FS) : Outcome :=
  ⟨{ fs with lockFileExists := true, lockHeld := true }, [.lockAcquire], true⟩

/-- Model of `unlock_venv_dir` (lines 245-251). -/
def unlock_venv_dir (fs : FS) : Outcome :=
  ⟨{ fs with lockHeld := false }, [.lockRelease], true⟩

/-- Lines 161-166, run while the lock is held: re-check the marker,
restore from an archive or build, then write the completion marker. -/
def locked_phase (env : Env) (reqs : List (List Char)) (fs : FS) : Outcome :=
  if fs.markerExists then ⟨fs, [], true⟩
  else
    let sr := search_for_precompiled_archive env fs
    let o :=
      if sr.2 then sr.1
      else sr.1.andThen fun fs2 =>
        Outcome.prepend [.buildInvoked] (update_unchecked env reqs fs2)
    o.andThen fun fs3 => ⟨{ fs3 with markerExists := true }, [.markerWrite], true⟩

/-- Model of `Autodeps.update_if_needed` (lines 151-172): fix the `latest`
symlink; if the completion marker exists return at once (fast path);
otherwise lock, run the locked phase, then unlock and best-effort
unlink the lock-file.  Note there is no `try/finally`: an exception in
the locked phase skips the unlock. -/
def update_if_needed (env : Env) (reqs : List (List Char)) (fs : FS) : Outcome :=
  if fs.markerExists then ⟨fs, [.symlinkFix], true⟩
  else
    Outcome.prepend [.symlinkFix]
      ((lock_venv_dir fs).andThen fun fs1 =>
       (locked_phase env reqs fs1).andThen fun fs2 =>
       (unlock_venv_dir fs2).andThen fun fs3 =>
       (⟨{ fs3 with lockFileExists := false }, [], true⟩ : Outcome))

/-- A whole request: `__init__` selects (and asserts) the directory,
then `update_if_needed` provisions it.  A failed selection is the
`assert` firing before any lock exists. -/
def run_request (thr : Rat) (cands : List Cand) (env : Env)
    (reqs : List (List Char)) (fs : FS) : Outcome :=
  match selectVenvDir thr cands with
  | none => ⟨fs, [], false⟩
  | some _ => update_if_needed env reqs fs

/-! ### Two publishers racing in `make_archive`

Finer-grained view of `make_archive` for two processes sharing the
archive directory.  Each publisher: checks whether `<hash>.tar.gz`
exists (line 291), tars into its private temporary file, then
`os.rename`s it into place — and POSIX `rename(2)` replaces an
existing destination.  `content` tokens stand for the tarball bytes
(two `tar -czf` runs need not produce identical bytes). -/

inductive PubPC where
  | start
  | checked
  | made
  | done
deriving DecidableEq

structure PubSys where
  archive : Option Nat
  pc1 : PubPC
  pc2 : PubPC
deriving DecidableEq

/-- One step of a single publisher with tarball content `content`. -/
def pubStep (content : Nat) : PubPC → Option Nat → PubPC × Option Nat
  | .start, a => if a.isSome then (.done, a) else (.checked, a)
  | .checked, a => (.made, a)
  | .made, _ => (.done, some content)
  | .done, a => (.done, a)

/-- Interleaving step: `true` steps publisher 1, `false` publisher 2. -/
def sysStep (c1 c2 : Nat) (s : PubSys) (w : Bool) : PubSys :=
  if w then
    let r := pubStep c1 s.pc1 s.archive
    { s with pc1 := r.1, archive := r.2 }
  else
    let r := pubStep c2 s.pc2 s.archive
    { s with pc2 := r.1, archive := r.2 }

/-- Run a schedule of interleaved publisher steps. -/
def runPub (c1 c2 : Nat) : PubSys → List Bool → PubSys
  | s, [] => s
  | s, w :: ws => runPub c1 c2 (sysStep c1 c2 s w) ws

/-! ### Derived predicates and concrete sample states -/

/-- One of the mandatory build steps of the claim — venv creation, a
package install, or the relocatable fix-up — fails. -/
def mandatory_step_fails (env : Env) (reqs : List (List Char)) : Prop :=
  env.createVenvOk = false ∨
    (∃ i, i < reqs.length ∧ env.pipOk i = false) ∨
    env.relocOk = false

/-- The per-package installer invocations `pip_install_packages` is
expected to emit: one per declaration, in order, logging to
`<package_short>.out`. -/
def pip_expected_events (pkgs : List (List Char)) : List Event :=
  pkgs.map fun p =>
    .runInstaller (package_short p) (some (package_short p ++ ".out".toList))

/-- Index of the first candidate satisfying `p` (generic form of the
two selection loops). -/
def firstIdx (p : Cand → Bool) : List Cand → Option Nat
  | [] => none
  | c :: rest => if p c then some 0 else (firstIdx p rest).map (· + 1)

/-- The phase-1 predicate: path or sibling lock-file already exists. -/
def candExisting (c : Cand) : Bool := c.pathExists || c.lockExists

/-- The phase-2 predicate: enough free space, and creation succeeded or
lost a benign race. -/
def candCreatable (thr : Rat) (c : Cand) : Bool :=
  decide (thr < c.freeGb) && (c.createOk || c.racedExists)

/-- An empty filesystem: no marker, no directories, no lock, no
archive tarball. -/
def fsEmpty : FS := ⟨false, false, false, false, false, none⟩

/-- Oracle for a request where no archive tarball exists and the venv
creation command fails (e.g. the virtualenv binary is missing). -/
def envBuildFail : Env :=
  ⟨false, true, false, true, true, false, true, fun _ => true, true, true, false, true, 0⟩

/-- Oracle for a request where an archive tarball exists but its
extraction exits non-zero (e.g. a corrupt tarball). -/
def envExtractFail : Env :=
  ⟨true, false, false, true, true, true, true, fun _ => true, true, true, false, true, 0⟩

/-- Oracle for a fully successful offline build (no tarball found,
every command succeeds, archive directory not writable). -/
def envAllOk : Env :=
  ⟨false, true, false, true, true, true, true, fun _ => true, true, true, false, true, 0⟩

/-- Oracle where the second package install (index 1) fails and
everything else succeeds. -/
def envPipFail : Env :=
  ⟨false, true, false, true, true, true, true, fun i => i != 1, true, true, false, true, 0⟩

/-! ## Theorems -/

/-! ### Shape of the identity token -/

theorem length_sha224bytes (msg : List Nat) : (sha224bytes msg).length = 28 := by
  simp [sha224bytes, word32ToBytes]

theorem length_flatten_byteToHex (l : List Nat) :
    ((l.map byteToHex).flatten).length = 2 * l.length := by
  induction l with
  | nil => simp
  | cons b l ih => simp [byteToHex, ih]; omega

theorem length_sha224hexdigest (msg : List Nat) :
    (sha224hexdigest msg).length = 56 := by
  unfold sha224hexdigest
  rw [length_flatten_byteToHex, length_sha224bytes]

theorem hexDig_mem (n : Nat) : hexDig n ∈ hexDigs := by
  have hlen : hexDigs.length = 16 := rfl
  by_cases h : n < 16
  · unfold hexDig
    rw [List.getD_eq_getElem _ _ (by omega)]
    exact List.getElem_mem _
  · unfold hexDig
    rw [List.getD_eq_default _ _ (by omega)]
    decide

theorem mem_sha224hexdigest (msg : List Nat) :
    ∀ c ∈ sha224hexdigest msg, c ∈ hexDigs := by
  intro c hc
  simp only [sha224hexdigest, List.mem_flatten, List.mem_map] at hc
  obtain ⟨l, ⟨b, _, rfl⟩, hcl⟩ := hc
  simp only [byteToHex, List.mem_cons, List.not_mem_nil, or_false] at hcl
  rcases hcl with rfl | rfl <;> exact hexDig_mem _

/-- Claim C10: for every runtime-version string and dependency set, the
identity token `deps_hash` is exactly 40 characters, each a lowercase
hexadecimal digit — the SHA-224 hexdigest (56 hex characters) truncated
to its first 40. -/
theorem deps_hash_forty_hex_chars (v : List Char) (reqs : List (List Char)) :
    (deps_hash v reqs).length = 40 ∧
    (deps_hash v reqs).all (fun c => decide (c ∈ hexDigs)) = true := by
  constructor
  · simp [deps_hash, List.length_take, length_sha224hexdigest]
  · rw [List.all_eq_true]
    intro c hc
    simpa using mem_sha224hexdigest _ c (List.take_subset _ _ hc)

/-! ### Fast path (C5) -/

/-- Claim C5: when the completion marker is already present, the
request returns at once having only touched the `latest` symlink: the
state is unchanged and no lock acquisition, build, archive lookup or
archive publish is ever performed. -/
theorem fast_path_no_lock_no_build (env : Env) (reqs : List (List Char)) (fs : FS)
    (h : fs.markerExists = true) :
    update_if_needed env reqs fs = ⟨fs, [.symlinkFix], true⟩ ∧
    Event.lockAcquire ∉ (update_if_needed env reqs fs).events ∧
    Event.buildInvoked ∉ (update_if_needed env reqs fs).events ∧
    Event.archiveSearch ∉ (update_if_needed env reqs fs).events ∧
    Event.archivePublish ∉ (update_if_needed env reqs fs).events := by
  simp [update_if_needed, h]

theorem fast_path_no_lock_no_build_witness :
    update_if_needed envAllOk [] { fsEmpty with markerExists := true } =
      ⟨{ fsEmpty with markerExists := true }, [.symlinkFix], true⟩ ∧
    Event.lockAcquire ∉
      (update_if_needed envAllOk [] { fsEmpty with markerExists := true }).events :=
  ⟨(fast_path_no_lock_no_build envAllOk [] _ rfl).1,
   (fast_path_no_lock_no_build envAllOk [] _ rfl).2.1⟩

/-! ### Lock release on the failure path (C1) -/

/-- Claim C1 (refuted — code bug): with the marker absent, no archive
tarball, and a failing venv-creation command, `update_if_needed`
propagates the exception while the advisory lock is still held: there
is no `try/finally` around the locked phase, so `unlock_venv_dir` is
never reached and no lock-release is performed before the request
terminates. -/
theorem lock_not_released_on_failed_build :
    (update_if_needed envBuildFail [] fsEmpty).ok = false ∧
    (update_if_needed envBuildFail [] fsEmpty).fs.lockHeld = true ∧
    Event.lockAcquire ∈ (update_if_needed envBuildFail [] fsEmpty).events ∧
    Event.lockRelease ∉ (update_if_needed envBuildFail [] fsEmpty).events := by
  decide

/-! ### Archive-restore failure (C2) -/

/-- Claim C2 (refuted): when a tarball exists but its extraction fails,
the request aborts — the extraction error propagates out of
`search_for_precompiled_archive` (there is no `try/except` around the
installer call) — and no build is ever attempted, contradicting the
claimed fall-through to a normal build. -/
theorem restore_failure_aborts_request :
    (update_if_needed envExtractFail [] fsEmpty).ok = false ∧
    Event.buildInvoked ∉ (update_if_needed envExtractFail [] fsEmpty).events ∧
    (update_if_needed envExtractFail [] fsEmpty).fs.markerExists = false := by
  decide

/-- Claim C2 (amended): if no archive tarball exists for the identity
the request falls through to a normal build; but if a tarball exists
and its extraction fails, the error propagates to the caller — the
request aborts without attempting a build and without writing the
marker. -/
theorem restore_failure_propagates_no_build (env : Env) (reqs : List (List Char))
    (fs : FS) (hm : fs.markerExists = false) :
    (env.archiveTarExists = false →
       Event.buildInvoked ∈ (update_if_needed env reqs fs).events) ∧
    (env.archiveTarExists = true → env.extractOk = false →
       (update_if_needed env reqs fs).ok = false ∧
       Event.buildInvoked ∉ (update_if_needed env reqs fs).events ∧
       (update_if_needed env reqs fs).fs.markerExists = false) := by
  constructor
  · intro ht
    simp [update_if_needed, hm, ht, locked_phase, search_for_precompiled_archive,
      lock_venv_dir, unlock_venv_dir, Outcome.andThen, Outcome.prepend, call_installer]
    split <;> simp
  · intro ht hx
    simp [update_if_needed, hm, ht, hx, locked_phase, search_for_precompiled_archive,
      lock_venv_dir, unlock_venv_dir, Outcome.andThen, Outcome.prepend, call_installer,
      submodule_update]

theorem restore_failure_propagates_no_build_witness :
    Event.buildInvoked ∈ (update_if_needed envAllOk [] fsEmpty).events ∧
    (update_if_needed envExtractFail [] fsEmpty).ok = false :=
  ⟨(restore_failure_propagates_no_build envAllOk [] fsEmpty rfl).1 rfl,
   ((restore_failure_propagates_no_build envExtractFail [] fsEmpty rfl).2 rfl rfl).1⟩

/-! ### Archive publish races (C3) -/

/-- Claim C3 (refuted): two publishers for the same identity can both
pass the `os.path.exists` check before either renames; `os.rename`
replaces an existing destination, so after publisher 2's rename has
put a tarball (content token 2) in place, publisher 1's later rename
silently replaces it (content token 1) — the first tarball does not
remain in place. -/
theorem concurrent_publish_overwrites_archive :
    (runPub 1 2 ⟨none, .start, .start⟩ [true, false, false, false]).archive = some 2 ∧
    (runPub 1 2 ⟨none, .start, .start⟩
        [true, false, false, false, true, true]).archive = some 1 := by
  decide

theorem runPub_stable (c1 c2 c : Nat) :
    ∀ (sched : List Bool) (s : PubSys), s.archive = some c →
      (s.pc1 = .start ∨ s.pc1 = .done) → (s.pc2 = .start ∨ s.pc2 = .done) →
      (runPub c1 c2 s sched).archive = some c := by
  intro sched
  induction sched with
  | nil => intro s h _ _; simpa [runPub] using h
  | cons w ws ih =>
    intro s h h1 h2
    cases w <;> [rcases h2 with h2 | h2; rcases h1 with h1 | h1] <;>
      simp only [runPub, sysStep] <;>
      simp [pubStep, h, h1, h2] <;>
      exact ih _ (by simp [h]) (by simp [h1]) (by simp [h2])

/-- Claim C3 (amended): sequentially, the first publisher wins — any
publish that begins after a tarball for the identity exists detects it
and skips, leaving the tarball unchanged (both in the interleaved
model, for publishers that have not yet passed the existence check,
and in `make_archive` itself); but concurrent publishers that have
both already passed the check can still replace it. -/
theorem archive_publish_skips_existing (c c1 c2 : Nat) (sched : List Bool)
    (env : Env) (fs : FS) :
    (runPub c1 c2 ⟨some c, .start, .start⟩ sched).archive = some c ∧
    (make_archive env { fs with archive := some c }).fs.archive = some c ∧
    (make_archive env { fs with archive := some c }).ok = true := by
  refine ⟨runPub_stable c1 c2 c sched _ rfl (Or.inl rfl) (Or.inl rfl), ?_, ?_⟩ <;>
    cases h : env.archiveWritable <;> simp [make_archive, h]

/-! ### Outcome algebra and step lemmas -/

theorem andThen_ok (o : Outcome) (f : FS → Outcome) :
    (o.andThen f).ok = (o.ok && (f o.fs).ok) := by
  unfold Outcome.andThen; cases h : o.ok <;> simp [h]

theorem andThen_fs (o : Outcome) (f : FS → Outcome) :
    (o.andThen f).fs = if o.ok then (f o.fs).fs else o.fs := by
  unfold Outcome.andThen; cases h : o.ok <;> simp [h]

theorem submodule_update_fs (env : Env) (fs : FS) :
    (submodule_update env fs).fs = fs := by
  unfold submodule_update; split <;> rfl

theorem submodule_update_ok (env : Env) (fs : FS) :
    (submodule_update env fs).ok = true := by
  unfold submodule_update; split <;> rfl

theorem make_archive_keeps (env : Env) (fs : FS) :
    (make_archive env fs).fs.finalExists = fs.finalExists ∧
    (make_archive env fs).fs.stagingExists = fs.stagingExists := by
  unfold make_archive
  cases hw : env.archiveWritable <;>
    cases ha : fs.archive.isSome <;>
    cases ht : env.tarOk <;>
    simp [hw, ha, ht, call_installer, Outcome.andThen]

/-! ### Per-package installation (C9 and support for C4) -/

theorem pip_fs (env : Env) :
    ∀ (pkgs : List (List Char)) (i : Nat) (fs : FS),
      (pip_install_packages env i pkgs fs).fs = fs := by
  intro pkgs
  induction pkgs with
  | nil => intro i fs; rfl
  | cons p rest ih =>
    intro i fs
    cases h : env.pipOk i <;>
      simp [pip_install_packages, call_installer, Outcome.andThen, h, ih]

theorem pip_ok_iff (env : Env) :
    ∀ (pkgs : List (List Char)) (i : Nat) (fs : FS),
      (pip_install_packages env i pkgs fs).ok = true ↔
        ∀ j, j < pkgs.length → env.pipOk (i + j) = true := by
  intro pkgs
  induction pkgs with
  | nil => intro i fs; simp [pip_install_packages]
  | cons p rest ih =>
    intro i fs
    cases h : env.pipOk i with
    | false =>
      simp only [pip_install_packages, call_installer, Outcome.andThen, h]
      simp only [Bool.false_eq_true, if_false]
      constructor
      · intro hfalse; exact absurd hfalse (by simp)
      · intro hall
        have := hall 0 (by simp)
        simp [h] at this
    | true =>
      simp only [pip_install_packages, call_installer, Outcome.andThen, h, if_true]
      constructor
      · intro hok j hj
        cases j with
        | zero => simpa using h
        | succ k =>
          have hk : k < rest.length := by simpa using Nat.lt_of_succ_lt_succ (by simpa using hj)
          have := ((ih (i + 1) fs).mp (by simpa using hok)) k hk
          simpa [Nat.add_assoc, Nat.add_comm 1 k] using this
      · intro hall
        have : (pip_install_packages env (i + 1) rest fs).ok = true := by
          rw [ih (i + 1) fs]
          intro j hj
          have := hall (j + 1) (by simpa using Nat.succ_lt_succ hj)
          simpa [Nat.add_assoc, Nat.add_comm 1 j] using this
        simpa using this

theorem pip_all_ok_run (env : Env) :
    ∀ (pkgs : List (List Char)) (i : Nat) (fs : FS),
      (∀ j, j < pkgs.length → env.pipOk (i + j) = true) →
      pip_install_packages env i pkgs fs = ⟨fs, pip_expected_events pkgs, true⟩ := by
  intro pkgs
  induction pkgs with
  | nil => intro i fs _; simp [pip_install_packages, pip_expected_events]
  | cons p rest ih =>
    intro i fs hall
    have h0 : env.pipOk i = true := by simpa using hall 0 (by simp)
    have hrest : ∀ j, j < rest.length → env.pipOk (i + 1 + j) = true := by
      intro j hj
      have := hall (j + 1) (by simpa using Nat.succ_lt_succ hj)
      simpa [Nat.add_assoc, Nat.add_comm 1 j] using this
    simp [pip_install_packages, call_installer, Outcome.andThen, h0,
      ih (i + 1) fs hrest, pip_expected_events]

theorem pip_first_fail_run (env : Env) :
    ∀ (pkgs : List (List Char)) (i : Nat) (fs : FS) (j : Nat),
      j < pkgs.length → (∀ k, k < j → env.pipOk (i + k) = true) →
      env.pipOk (i + j) = false →
      pip_install_packages env i pkgs fs =
        ⟨fs, pip_expected_events (pkgs.take (j + 1)), false⟩ := by
  intro pkgs
  induction pkgs with
  | nil => intro i fs j hj _ _; simp at hj
  | cons p rest ih =>
    intro i fs j hj hpre hfail
    cases j with
    | zero =>
      have h0 : env.pipOk i = false := by simpa using hfail
      simp [pip_install_packages, call_installer, Outcome.andThen, h0,
        pip_expected_events]
    | succ k =>
      have h0 : env.pipOk i = true := by simpa using hpre 0 (Nat.succ_pos k)
      have hpre2 : ∀ m, m < k → env.pipOk (i + 1 + m) = true := by
        intro m hm
        have := hpre (m + 1) (Nat.succ_lt_succ hm)
        simpa [Nat.add_assoc, Nat.add_comm 1 m] using this
      have hfail2 : env.pipOk (i + 1 + k) = false := by
        have : i + 1 + k = i + (k + 1) := by omega
        rw [this]; exact hfail
      simp [pip_install_packages, call_installer, Outcome.andThen, h0,
        ih (i + 1) fs k (by simpa using Nat.lt_of_succ_lt_succ hj) hpre2 hfail2,
        pip_expected_events]

/-- Claim C9: package installation processes the declarations one at a
time in order, each as its own installer invocation with its own log
file `<package_short p>.out`; if every install succeeds all of them
run, and the first failing install (index `j`) aborts the build with
exactly the first `j + 1` invocations performed and the remaining
declarations skipped. -/
theorem pip_install_per_package_order_abort (env : Env) (pkgs : List (List Char))
    (i : Nat) (fs : FS) :
    ((∀ j, j < pkgs.length → env.pipOk (i + j) = true) →
       pip_install_packages env i pkgs fs = ⟨fs, pip_expected_events pkgs, true⟩) ∧
    (∀ j, j < pkgs.length → (∀ k, k < j → env.pipOk (i + k) = true) →
       env.pipOk (i + j) = false →
       pip_install_packages env i pkgs fs =
         ⟨fs, pip_expected_events (pkgs.take (j + 1)), false⟩) :=
  ⟨pip_all_ok_run env pkgs i fs,
   fun j hj hpre hfail => pip_first_fail_run env pkgs i fs j hj hpre hfail⟩

theorem pip_install_per_package_order_abort_witness :
    pip_install_packages envPipFail 0
        ["a/b-c==2".toList, "x y".toList, "z".toList] fsEmpty =
      ⟨fsEmpty,
       pip_expected_events (["a/b-c==2".toList, "x y".toList, "z".toList].take 2),
       false⟩ :=
  (pip_install_per_package_order_abort envPipFail
      ["a/b-c==2".toList, "x y".toList, "z".toList] 0 fsEmpty).2
    1 (by decide) (by decide) (by decide)

/-! ### Failed and successful builds (C4) -/

/-- Claim C4: if a mandatory step (venv creation, a package install,
the relocatable fix-up) fails, `update_unsafe` raises, a final path
that was absent before the build stays absent, and the staging
directory (created by `mkdirs`) is left behind; on a run that returns
normally, the staging directory has been renamed onto the final path:
the final directory exists and the staging directory is gone. -/
theorem update_unchecked_aborts_early (env : Env) (reqs : List (List Char)) (fs : FS)
    (h : (env.createVenvOk && env.tagOk &&
          (pip_install_packages env 0 reqs
            { fs with stagingExists := fs.stagingExists || env.mkdirOk }).ok &&
          env.relocOk) = false) :
    (update_unchecked env reqs fs).ok = false ∧
    (update_unchecked env reqs fs).fs =
      { fs with stagingExists := fs.stagingExists || env.mkdirOk } := by
  cases hcv : env.createVenvOk <;>
    cases htag : env.tagOk <;>
    cases hpip : (pip_install_packages env 0 reqs
      { fs with stagingExists := fs.stagingExists || env.mkdirOk }).ok <;>
    cases hreloc : env.relocOk <;>
    simp_all [update_unchecked, andThen_ok, andThen_fs, call_installer,
      submodule_update_fs, submodule_update_ok, pip_fs]

theorem update_unchecked_ok_final (env : Env) (reqs : List (List Char)) (fs : FS)
    (hok : (update_unchecked env reqs fs).ok = true) :
    (update_unchecked env reqs fs).fs.finalExists = true ∧
    (update_unchecked env reqs fs).fs.stagingExists = false := by
  cases hcv : env.createVenvOk <;>
    cases htag : env.tagOk <;>
    cases hpip : (pip_install_packages env 0 reqs
      { fs with stagingExists := fs.stagingExists || env.mkdirOk }).ok <;>
    cases hreloc : env.relocOk <;>
    cases hrm : fs.finalExists && !env.rmtreeOk <;>
    simp_all [update_unchecked, andThen_ok, andThen_fs, call_installer,
      submodule_update_fs, submodule_update_ok, pip_fs, rmtree_final,
      make_archive_keeps]

/-- Claim C4: if a mandatory step (venv creation, a package install,
the relocatable fix-up) fails, `update_unsafe` raises, a final path
that was absent before the build stays absent, and the staging
directory (created by `mkdirs`) is left behind; on a run that returns
normally, the staging directory has been renamed onto the final path:
the final directory exists and the staging directory is gone. -/
theorem failed_build_leaves_final_absent (env : Env) (reqs : List (List Char)) (fs : FS) :
    (mandatory_step_fails env reqs →
       (update_unchecked env reqs fs).ok = false ∧
       (fs.finalExists = false → (update_unchecked env reqs fs).fs.finalExists = false) ∧
       (env.mkdirOk = true → (update_unchecked env reqs fs).fs.stagingExists = true)) ∧
    ((update_unchecked env reqs fs).ok = true →
       (update_unchecked env reqs fs).fs.finalExists = true ∧
       (update_unchecked env reqs fs).fs.stagingExists = false) := by
  constructor
  · intro hmf
    have hbits : (env.createVenvOk && env.tagOk &&
        (pip_install_packages env 0 reqs
          { fs with stagingExists := fs.stagingExists || env.mkdirOk }).ok &&
        env.relocOk) = false := by
      rcases hmf with h | ⟨i, hi, hf⟩ | h
      · simp [h]
      · cases hpipv : (pip_install_packages env 0 reqs
          { fs with stagingExists := fs.stagingExists || env.mkdirOk }).ok
        · simp
        · have := (pip_ok_iff env reqs 0 _).mp hpipv i hi
          simp [hf] at this
      · simp [h]
    obtain ⟨hok, hfs⟩ := update_unchecked_aborts_early env reqs fs hbits
    refine ⟨hok, fun hfin => ?_, fun hmk => ?_⟩
    · simp [hfs, hfin]
    · simp [hfs, hmk]
  · exact update_unchecked_ok_final env reqs fs

/-! ### Directory selection (C8) -/

theorem searchExisting_eq_firstIdx :
    ∀ cands : List Cand, searchExisting cands = firstIdx candExisting cands := by
  intro cands
  induction cands with
  | nil => rfl
  | cons c rest ih => simp [searchExisting, firstIdx, candExisting, ih]

theorem searchCreate_eq_firstIdx (thr : Rat) :
    ∀ cands : List Cand, searchCreate thr cands = firstIdx (candCreatable thr) cands := by
  intro cands
  induction cands with
  | nil => rfl
  | cons c rest ih =>
    by_cases hf : thr < c.freeGb <;>
      by_cases hc : c.createOk <;>
        by_cases hr : c.racedExists <;>
          simp [searchCreate, firstIdx, candCreatable, hf, hc, hr, ih]

theorem firstIdx_some_iff (p : Cand → Bool) :
    ∀ (cands : List Cand) (i : Nat),
      firstIdx p cands = some i ↔
        (∃ c, cands[i]? = some c ∧ p c = true) ∧
        ∀ j c, j < i → cands[j]? = some c → p c = false := by
  intro cands
  induction cands with
  | nil => intro i; simp [firstIdx]
  | cons c rest ih =>
    intro i
    by_cases hp : p c
    · constructor
      · intro h
        simp [firstIdx, hp] at h
        subst h
        exact ⟨⟨c, by simp, hp⟩, fun j c' hj => absurd hj (by omega)⟩
      · rintro ⟨⟨c', hc', hpc'⟩, hmin⟩
        cases i with
        | zero => simp [firstIdx, hp]
        | succ k =>
          have := hmin 0 c (by omega) (by simp)
          simp [hp] at this
    · constructor
      · intro h
        simp only [firstIdx, hp, Bool.false_eq_true, if_false, Option.map_eq_some'] at h
        obtain ⟨j, hj, rfl⟩ := h
        obtain ⟨⟨c', hc', hpc'⟩, hmin⟩ := (ih j).mp hj
        refine ⟨⟨c', by simpa using hc', hpc'⟩, ?_⟩
        intro m cm hm hcm
        cases m with
        | zero =>
          simp at hcm
          subst hcm
          exact Bool.eq_false_iff.mpr hp
        | succ m' => exact hmin m' cm (by omega) (by simpa using hcm)
      · rintro ⟨⟨c', hc', hpc'⟩, hmin⟩
        cases i with
        | zero =>
          simp at hc'
          subst hc'
          exact absurd hpc' hp
        | succ k =>
          have hj := (ih k).mpr ⟨⟨c', by simpa using hc', hpc'⟩,
            fun m cm hm hcm => hmin (m + 1) cm (by omega) (by simpa using hcm)⟩
          simp [firstIdx, hp, hj]

theorem firstIdx_none_iff (p : Cand → Bool) :
    ∀ cands : List Cand, firstIdx p cands = none ↔ ∀ c ∈ cands, p c = false := by
  intro cands
  induction cands with
  | nil => simp [firstIdx]
  | cons c rest ih => by_cases hp : p c <;> simp [firstIdx, hp, ih]

/-- Claim C8: the selector picks the first candidate that exists or has
a sibling lock-file; when none does, it picks exactly the first
candidate whose free space exceeds the threshold and whose creation
succeeds or races benignly; when no candidate qualifies at all, the
assert aborts the request before any lock exists (no lock event); the
default threshold is 1.0 GiB. -/
theorem venv_dir_selection_spec (thr : Rat) (cands : List Cand) (env : Env)
    (reqs : List (List Char)) (fs : FS) :
    (∀ i, searchExisting cands = some i →
       selectVenvDir thr cands = some i ∧
       (∃ c, cands[i]? = some c ∧ candExisting c = true) ∧
       (∀ j c, j < i → cands[j]? = some c → candExisting c = false)) ∧
    (searchExisting cands = none →
       ∀ i, selectVenvDir thr cands = some i ↔
         (∃ c, cands[i]? = some c ∧ candCreatable thr c = true) ∧
         (∀ j c, j < i → cands[j]? = some c → candCreatable thr c = false)) ∧
    (selectVenvDir thr cands = none →
       run_request thr cands env reqs fs = ⟨fs, [], false⟩ ∧
       Event.lockAcquire ∉ (run_request thr cands env reqs fs).events) ∧
    requiredGb none = 1 := by
  refine ⟨?_, ?_, ?_, rfl⟩
  · intro i hi
    have hspec := (firstIdx_some_iff candExisting cands i).mp
      (by rw [← searchExisting_eq_firstIdx]; exact hi)
    exact ⟨by simp [selectVenvDir, hi], hspec.1, hspec.2⟩
  · intro hnone i
    rw [show selectVenvDir thr cands = searchCreate thr cands by
          simp [selectVenvDir, hnone],
        searchCreate_eq_firstIdx]
    exact firstIdx_some_iff (candCreatable thr) cands i
  · intro hsel
    refine ⟨by simp [run_request, hsel], by simp [run_request, hsel]⟩

theorem venv_dir_selection_spec_witness :
    selectVenvDir 1 [⟨false, false, 0, true, false⟩, ⟨false, false, 10, true, false⟩]
      = some 1 ∧
    run_request 1 [] envAllOk [] fsEmpty = ⟨fsEmpty, [], false⟩ :=
  ⟨((venv_dir_selection_spec 1
        [⟨false, false, 0, true, false⟩, ⟨false, false, 10, true, false⟩]
        envAllOk [] fsEmpty).2.1 (by decide) 1).mpr
      ⟨⟨⟨false, false, 10, true, false⟩, rfl, by decide⟩,
       fun j c hj hc => by
         have hj0 : j = 0 := by omega
         subst hj0
         simp only [List.getElem?_cons_zero, Option.some.injEq] at hc
         subst hc
         decide⟩,
   ((venv_dir_selection_spec 1 [] envAllOk [] fsEmpty).2.2.1 (by decide)).1⟩

theorem failed_build_leaves_final_absent_witness :
    (update_unchecked envBuildFail [] fsEmpty).ok = false ∧
    (update_unchecked envBuildFail [] fsEmpty).fs.finalExists = false ∧
    (update_unchecked envBuildFail [] fsEmpty).fs.stagingExists = true := by
  have h := (failed_build_leaves_final_absent envBuildFail [] fsEmpty).1
    (Or.inl (by decide))
  exact ⟨h.1, h.2.1 (by decide), h.2.2 (by decide)⟩

/-! ### Injectivity of the hashed serialization (C6) and parsing (C7) -/

theorem hexVal_hexDig (n : Nat) (h : n < 16) : hexVal (hexDig n) = some n := by
  interval_cases n <;> decide

theorem char_toNat_inj {a b : Char} (h : a.toNat = b.toNat) : a = b := by
  have := congrArg Char.ofNat h
  rwa [Char.ofNat_toNat, Char.ofNat_toNat] at this

theorem chooseQuote_cases (s : List Char) :
    chooseQuote s = '\'' ∨ chooseQuote s = '"' := by
  unfold chooseQuote
  split
  · exact Or.inr rfl
  · exact Or.inl rfl

theorem parseReprAux_escChar (q c : Char) (hq : q = '\'' ∨ q = '"')
    (hc : c.toNat < 256) (acc rest : List Char) :
    parseReprAux q acc (escChar q c ++ rest) = parseReprAux q (c :: acc) rest := by
  have f1 : ¬ (('\\' : Char) = q) := by rcases hq with rfl | rfl <;> decide
  have f2 : ¬ (q = 'x') := by rcases hq with rfl | rfl <;> decide
  have f3 : unescSimple q = some q := by rcases hq with rfl | rfl <;> decide
  by_cases h1 : c = '\\'
  · subst h1
    simp [escChar, parseReprAux, f1, unescSimple]
  by_cases h2 : c = q
  · rcases hq with rfl | rfl <;> simp [escChar, parseReprAux, h1, h2, unescSimple]
  by_cases h3 : c = '\t'
  · subst h3
    simp [escChar, parseReprAux, h1, h2, f1, unescSimple]
  by_cases h4 : c = '\n'
  · subst h4
    simp [escChar, parseReprAux, h1, h2, h3, f1, unescSimple]
  by_cases h5 : c = '\r'
  · subst h5
    simp [escChar, parseReprAux, h1, h2, h3, h4, f1, unescSimple]
  by_cases h6 : 32 ≤ c.toNat ∧ c.toNat ≤ 126
  · have he : escChar q c = [c] := by simp [escChar, h1, h2, h3, h4, h5, h6]
    rw [he, List.singleton_append, parseReprAux.eq_def]
    simp [h1, h2]
  · have hd16 : c.toNat / 16 < 16 := by omega
    have e1 : hexVal (hexDig (c.toNat / 16 % 16)) = some (c.toNat / 16 % 16) :=
      hexVal_hexDig _ (Nat.mod_lt _ (by norm_num))
    have e2 : hexVal (hexDig (c.toNat % 16)) = some (c.toNat % 16) :=
      hexVal_hexDig _ (Nat.mod_lt _ (by norm_num))
    have e3 : 16 * (c.toNat / 16 % 16) + c.toNat % 16 = c.toNat := by
      rw [Nat.mod_eq_of_lt hd16]
      omega
    simp [escChar, parseReprAux, h1, h2, h3, h4, h5, h6, f1, e1, e2, e3,
      Char.ofNat_toNat]

theorem parseReprAux_escBody (q : Char) (hq : q = '\'' ∨ q = '"') :
    ∀ (s : List Char), bytesOnly s → ∀ (acc rest : List Char),
      parseReprAux q acc (escBody q s ++ q :: rest) = some (acc.reverse ++ s, rest) := by
  intro s
  induction s with
  | nil =>
    intro _ acc rest
    simp only [escBody, List.map_nil, List.flatten_nil, List.nil_append]
    rw [parseReprAux.eq_def]
    simp
  | cons c cs ih =>
    intro hb acc rest
    have hc : c.toNat < 256 := hb c (by simp)
    have hcs : bytesOnly cs := fun d hd => hb d (by simp [hd])
    rw [show escBody q (c :: cs) = escChar q c ++ escBody q cs from by
          simp [escBody]]
    rw [List.append_assoc, parseReprAux_escChar q c hq hc, ih hcs]
    simp

theorem parseReprStr_reprStr (s : List Char) (hb : bytesOnly s) (rest : List Char) :
    parseReprStr (reprStr s ++ rest) = some (s, rest) := by
  have hq := chooseQuote_cases s
  have hq2 : (chooseQuote s = '\'' ∨ chooseQuote s = '"') := hq
  rw [reprStr, List.cons_append, parseReprStr]
  rw [if_pos (by rcases hq with h | h <;> simp [h])]
  rw [List.append_assoc]
  simpa using parseReprAux_escBody (chooseQuote s) hq2 s hb [] rest

theorem parseReprElems_run :
    ∀ (xs : List (List Char)), xs ≠ [] → bytesSet xs →
      ∀ (fuel : Nat), xs.length ≤ fuel → ∀ (tail : List Char),
        parseReprElems fuel (sepJoin (xs.map reprStr) ++ ']' :: tail) =
          some (xs, tail) := by
  intro xs
  induction xs with
  | nil => intro h; exact absurd rfl h
  | cons x xs ih =>
    intro _ hb fuel hfuel tail
    have hbx : bytesOnly x := hb x (by simp)
    cases fuel with
    | zero => simp at hfuel
    | succ f =>
      cases xs with
      | nil =>
        have hps := parseReprStr_reprStr x hbx (']' :: tail)
        simp [sepJoin, parseReprElems, hps]
      | cons y ys =>
        have hby : bytesSet (y :: ys) := fun s hs => hb s (by simp [hs])
        have hfe : (y :: ys).length ≤ f := by simp at hfuel ⊢; omega
        have hih := ih (by simp) hby f hfe tail
        have hps := parseReprStr_reprStr x hbx
          (',' :: ' ' :: (sepJoin ((y :: ys).map reprStr) ++ ']' :: tail))
        simp only [List.map_cons] at hps hih ⊢
        simp [sepJoin, parseReprElems, hps, hih, List.append_assoc]

theorem reprStr_len (s : List Char) : 2 ≤ (reprStr s).length := by
  simp [reprStr]

theorem sepJoin_reprStr_len :
    ∀ xs : List (List Char), xs.length ≤ (sepJoin (xs.map reprStr)).length + 1 := by
  intro xs
  induction xs with
  | nil => simp
  | cons x xs ih =>
    cases xs with
    | nil => simp [sepJoin]
    | cons y ys =>
      rw [List.map_cons,
        show sepJoin (reprStr x :: (y :: ys).map reprStr) =
          reprStr x ++ ',' :: ' ' :: sepJoin ((y :: ys).map reprStr) from by
            simp [sepJoin]]
      simp only [List.length_cons, List.length_append] at ih ⊢
      omega

theorem sepJoin_reprStr_len2 (x : List Char) (xs : List (List Char)) :
    2 ≤ (sepJoin ((x :: xs).map reprStr)).length := by
  cases xs with
  | nil => simpa [sepJoin] using reprStr_len x
  | cons y ys =>
    rw [List.map_cons,
      show sepJoin (reprStr x :: (y :: ys).map reprStr) =
        reprStr x ++ ',' :: ' ' :: sepJoin ((y :: ys).map reprStr) from by
          simp [sepJoin]]
    have := reprStr_len x
    simp only [List.length_append, List.length_cons]
    omega

theorem parseReprList_pyReprList (xs : List (List Char)) (hb : bytesSet xs) :
    parseReprList (pyReprList xs) = some xs := by
  cases xs with
  | nil => rfl
  | cons x xs =>
    have h2 := sepJoin_reprStr_len2 x xs
    have hne : sepJoin ((x :: xs).map reprStr) ++ [']'] ≠ [']'] := by
      intro h
      have := congrArg List.length h
      simp only [List.length_append, List.length_cons, List.length_nil] at this
      omega
    have hfuel : (x :: xs).length ≤ (sepJoin ((x :: xs).map reprStr) ++ [']']).length := by
      have := sepJoin_reprStr_len (x :: xs)
      simp only [List.length_append, List.length_cons, List.length_nil] at this ⊢
      omega
    have hrun := parseReprElems_run (x :: xs) (by simp) hb
      ((sepJoin ((x :: xs).map reprStr) ++ [']']).length) hfuel []
    rw [pyReprList, parseReprList]
    · rw [hrun]
      rfl
    · exact hne

theorem pyReprList_inj {A B : List (List Char)} (hA : bytesSet A) (hB : bytesSet B)
    (h : pyReprList A = pyReprList B) : A = B := by
  have h1 := parseReprList_pyReprList A hA
  rw [h, parseReprList_pyReprList B hB] at h1
  exact (Option.some.inj h1).symm

/-- Claim C6: the identity is deterministic and order-sensitive: for
equal dependency sets and runtime version the identity is equal; for
distinct dependency sets (in particular any reordering) the digest
inputs differ, so the identities differ unless the truncated SHA-224
digest collides on two distinct byte strings (the negligible event the
claim sets aside). -/
theorem identity_deterministic_order_sensitive (v : List Char) (A B : List (List Char))
    (hA : bytesSet A) (hB : bytesSet B) :
    (A = B → deps_hash v A = deps_hash v B) ∧
    (A ≠ B → hashInput v A ≠ hashInput v B ∧
       (deps_hash v A = deps_hash v B → TruncDigestCollision)) := by
  constructor
  · intro h
    rw [h]
  · intro hne
    have hpre : hashInput v A ≠ hashInput v B := by
      intro h
      exact hne (pyReprList_inj hA hB (List.append_cancel_left h))
    refine ⟨hpre, fun hd => ?_⟩
    refine ⟨(hashInput v A).map Char.toNat, (hashInput v B).map Char.toNat, ?_, hd⟩
    intro h
    exact hpre (List.map_injective_iff.mpr (fun a b hab => char_toNat_inj hab) h)

theorem identity_deterministic_order_sensitive_witness :
    hashInput "2.7.6".toList ["foo".toList] ≠ hashInput "2.7.6".toList ["bar".toList] :=
  ((identity_deterministic_order_sensitive "2.7.6".toList ["foo".toList]
      ["bar".toList] (by decide) (by decide)).2 (by decide)).1

/-- Claim C7: requirements parsing strips comments, trims whitespace
and drops blank lines while preserving order: the four-line example
file resolves to exactly the two declarations, and the identity
computed from a resolved set is deterministic for a fixed runtime
version. -/
theorem requirements_parsing_example :
    parse_requirements ["foo==1.0\n".toList, "# comment\n".toList, "\n".toList,
        "bar".toList] = ["foo==1.0".toList, "bar".toList] ∧
    (∀ (v : List Char) (A B : List (List Char)),
       parse_requirements A = parse_requirements B →
       deps_hash v (parse_requirements A) = deps_hash v (parse_requirements B)) :=
  ⟨by decide, fun v A B h => by rw [h]⟩

theorem requirements_parsing_example_witness :
    parse_requirements ["foo==1.0\n".toList, "# comment\n".toList, "\n".toList,
        "bar".toList] = ["foo==1.0".toList, "bar".toList] ∧
    deps_hash "2.7.6".toList
        (parse_requirements ["foo==1.0\n".toList, "bar".toList]) =
      deps_hash "2.7.6".toList
        (parse_requirements ["foo==1.0\n".toList, "bar".toList]) :=
  ⟨requirements_parsing_example.1,
   requirements_parsing_example.2 "2.7.6".toList
     ["foo==1.0\n".toList, "bar".toList] ["foo==1.0\n".toList, "bar".toList] rfl⟩

end Autodeps
